import Mathlib

/-!
Verification development for the agentslack message-visibility engine
(`agentslack/api.py`).  The Python `Server` methods are embedded as pure
Lean functions: the Slack backend is passed in as explicit data
(raw message lists, member lists, channel listings), registry lookups are
passed as functions, and the per-agent read-message ledger is threaded as
explicit state.  Machine floats (`time.time()`, `float(ts)`) are modelled
as rationals; Python's dynamically typed `Message.timestamp` field (a
float at send sites, a string at read sites) is modelled as a sum type.
-/

namespace AgentSlack

/-- The value stored in `Message.timestamp`.  In the Python code this field
is dynamically typed: send sites store `time.time()` (a float), read sites
store the backend `ts` string (possibly truncated).  Python equality between
a float and a string is always `False`, which the sum type reflects. -/
inductive TSVal where
  | f (t : Rat)
  | s (x : String)
deriving DecidableEq, Repr

/-- The canonical `Message` dataclass (`agentslack/types.py` is not in the
sources; its field list is read off the constructor calls in `api.py`, and
dataclass equality is full-attribute equality, which `DecidableEq` gives). -/
structure Message where
  message : String
  channel_id : String
  user_id : String
  timestamp : TSVal
  agent_name : String
deriving DecidableEq, Repr

/-- A raw backend message record as returned by `slack_client.read`:
fields `user`, `text`, `ts` (a decimal string such as "1234.5678"). -/
structure RawMessage where
  user : String
  text : String
  ts : String
deriving DecidableEq, Repr

/-- A channel record (`Channel(slack_id=..., name=...)`). -/
structure Channel where
  slack_id : String
  name : String
deriving DecidableEq, Repr

/-- `Server.only_show_new_messages`: keep the candidate messages that are
not already in the agent's ledger for the channel
(`[msg for msg in messages if msg not in previous_messages]`). -/
def only_show_new_messages (previous_messages : List Message)
    (messages : List Message) : List Message :=
  messages.filter (fun msg => decide (msg ∉ previous_messages))

/-- `Server._update_agent_read_messages`: extend the ledger with the
candidate messages not already present
(`ledger.extend([m for m in messages if m not in ledger])`; the list
comprehension is evaluated against the ledger before the extend). -/
def _update_agent_read_messages (ledger : List Message)
    (messages : List Message) : List Message :=
  ledger ++ messages.filter (fun msg => decide (msg ∉ ledger))

theorem mem_update_of_mem_candidates (ledger messages : List Message)
    (m : Message) (hm : m ∈ messages) :
    m ∈ _update_agent_read_messages ledger messages := by
  unfold _update_agent_read_messages
  by_cases h : m ∈ ledger
  · exact List.mem_append_left _ h
  · refine List.mem_append_right _ ?_
    simp [List.mem_filter, hm, h]

theorem update_with_delta_eq_update (ledger messages : List Message) :
    _update_agent_read_messages ledger (only_show_new_messages ledger messages)
      = _update_agent_read_messages ledger messages := by
  unfold _update_agent_read_messages only_show_new_messages
  rw [List.filter_filter]
  congr 1
  apply List.filter_congr
  intro m _
  by_cases h : m ∈ ledger <;> simp [h]

/-- C2: for every agent ledger and candidate list, running
`only_show_new_messages` (delta), then `_update_agent_read_messages`
(record) on the delta — exactly the pipeline of `check_new_messages` —
and then taking the delta of the same candidate list again yields the
empty list. -/
theorem delta_record_second_delta_empty (ledger messages : List Message) :
    only_show_new_messages
      (_update_agent_read_messages ledger (only_show_new_messages ledger messages))
      messages = [] := by
  rw [update_with_delta_eq_update]
  unfold only_show_new_messages
  rw [List.filter_eq_nil_iff]
  intro m hm
  simp only [decide_eq_true_eq, Decidable.not_not]
  exact mem_update_of_mem_candidates ledger messages m hm

/-- C4 counterexample: the claim says the ledger never contains two equal
messages; but `_update_agent_read_messages` filters the incoming batch
against the old ledger only, so a batch that itself repeats a message is
appended twice.  Concretely, recording `[m, m]` into the empty ledger
yields the ledger `[m, m]`, which is not duplicate-free. -/
theorem ledger_can_duplicate :
    ¬ (_update_agent_read_messages []
        [⟨"hi", "C1", "U1", TSVal.s "1.0", "alice"⟩,
         ⟨"hi", "C1", "U1", TSVal.s "1.0", "alice"⟩]).Nodup := by
  decide

/-- C4 (amended): the ledger only grows — `record` leaves the old ledger as
an unchanged initial segment and appends exactly the incoming messages not
already present (by full-attribute equality); consequently the ledger length
is non-decreasing, and provided the incoming batch itself repeats no
message, a duplicate-free ledger stays duplicate-free no matter how often
an overlapping read is replayed. -/
theorem ledger_append_only (ledger messages : List Message) :
    ledger.length ≤ (_update_agent_read_messages ledger messages).length
    ∧ _update_agent_read_messages ledger messages
        = ledger ++ messages.filter (fun msg => decide (msg ∉ ledger))
    ∧ (ledger.Nodup → messages.Nodup →
        (_update_agent_read_messages ledger messages).Nodup) := by
  refine ⟨?_, rfl, ?_⟩
  · unfold _update_agent_read_messages
    simp
  · intro hl hm
    unfold _update_agent_read_messages
    refine List.Nodup.append hl (hm.filter _) ?_
    intro m hml hmf
    rw [List.mem_filter] at hmf
    exact absurd hml (by simpa using hmf.2)

/-- Witness for `ledger_append_only`: the Nodup-preservation hypotheses
discharged on the empty ledger and a concrete one-message batch. -/
theorem ledger_append_only_witness :
    (_update_agent_read_messages []
      [⟨"hi", "C1", "U1", TSVal.s "1.0", "alice"⟩]).Nodup :=
  (ledger_append_only [] [⟨"hi", "C1", "U1", TSVal.s "1.0", "alice"⟩]).2.2
    (by decide) (by decide)

/-- The world-start filter applied by `read_channel`:
`datetime.fromtimestamp(float(msg['ts'])).timestamp() > world_start_datetime`.
Python's `float` string parse is the parameter `fts`; the
`datetime.fromtimestamp(..).timestamp()` round trip is the identity. -/
def channel_read_keeps (fts : String → Rat) (world_start : Rat)
    (r : RawMessage) : Bool :=
  decide (fts r.ts > world_start)

/-- The world-start filter applied by `read_dm`:
`datetime.fromtimestamp(float(message['ts'])).timestamp() >= world_start_datetime`. -/
def dm_read_keeps (fts : String → Rat) (world_start : Rat)
    (r : RawMessage) : Bool :=
  decide (fts r.ts ≥ world_start)

/-- The world-start filter applied by `check_new_messages`:
`datetime.fromtimestamp(float(msg['ts'])).timestamp() >= world_start_datetime`. -/
def check_new_keeps (fts : String → Rat) (world_start : Rat)
    (r : RawMessage) : Bool :=
  decide (fts r.ts ≥ world_start)

/-- Sender resolution in `read_channel` and `read_dm`:
`if message['user'] in registry.get_all_agent_names():
   registry.get_agent_name_from_id(message['user'])
 else: registry.get_human_name_from_id(message['user'])`.
Note the guard tests the raw slack user id for membership in the list of
agent display names. -/
def resolve_sender_read (all_agent_names : List String)
    (get_agent_name_from_id get_human_name_from_id : String → String)
    (user : String) : String :=
  if user ∈ all_agent_names then get_agent_name_from_id user
  else get_human_name_from_id user

/-- Python `ts.split('.')[0]`: drop the fractional part of a backend
timestamp string, i.e. keep the characters before the first dot (the whole
string when there is no dot, the empty string when it starts with one). -/
def truncate_ts (ts : String) : String :=
  String.mk (ts.data.takeWhile (fun c => c != '.'))

/-- The `Message` built by `read_channel` from a raw record: raw `ts`
string kept as-is, `user_id` the raw slack user id. -/
def normalize_channel_message (all_agent_names : List String)
    (get_agent_name_from_id get_human_name_from_id : String → String)
    (channel_id : String) (r : RawMessage) : Message :=
  ⟨r.text, channel_id, r.user, TSVal.s r.ts,
   resolve_sender_read all_agent_names get_agent_name_from_id
     get_human_name_from_id r.user⟩

/-- The `Message` built by `read_dm` from a raw record: `ts` truncated via
`split('.')[0]`. -/
def normalize_dm_message (all_agent_names : List String)
    (get_agent_name_from_id get_human_name_from_id : String → String)
    (channel_id : String) (r : RawMessage) : Message :=
  ⟨r.text, channel_id, r.user, TSVal.s (truncate_ts r.ts),
   resolve_sender_read all_agent_names get_agent_name_from_id
     get_human_name_from_id r.user⟩

/-- The `Message` built by `check_new_messages` from a raw record: `ts`
truncated, and the sender resolved by
`registry.get_agent_name_from_id(message['user'])` alone — no guard and no
human-name fallback at this call site. -/
def normalize_cnm_message (get_agent_name_from_id : String → String)
    (channel_id : String) (r : RawMessage) : Message :=
  ⟨r.text, channel_id, r.user, TSVal.s (truncate_ts r.ts),
   get_agent_name_from_id r.user⟩

/-- Result of a read tool call: either a string payload or a message list. -/
inductive ReadResult where
  | err (s : String)
  | msgs (l : List Message)
deriving DecidableEq, Repr

/-- `call_tool("read_channel", ...)`, from the backend `read` onwards: if
the raw message list is empty, return the not-a-member string (before any
filtering, and without touching the ledger); otherwise filter by the world
start, normalize, record into the ledger and return the normalized list.
Returns the payload together with the updated ledger for the channel. -/
def read_channel (fts : String → Rat) (all_agent_names : List String)
    (get_agent_name_from_id get_human_name_from_id : String → String)
    (world_start : Rat) (channel_id : String)
    (raw : List RawMessage) (ledger : List Message) :
    ReadResult × List Message :=
  if raw.length = 0 then
    (ReadResult.err "You are not a member of this channel, you can't read it.",
     ledger)
  else
    let messages := (raw.filter (channel_read_keeps fts world_start)).map
      (normalize_channel_message all_agent_names get_agent_name_from_id
        get_human_name_from_id channel_id)
    (ReadResult.msgs messages, _update_agent_read_messages ledger messages)

/-- `call_tool("read_dm", ...)`, from the backend `read` onwards (the DM
channel-discovery loop has already produced `channel_id`): a backend error
payload is returned as-is; otherwise every raw record is normalized and
kept iff its timestamp is `>=` the world start (the Python loop interleaves
the normalization and the filter, which equals filter-then-map), the result
is recorded and returned.  There is no empty-list check at this call
site. -/
def read_dm (fts : String → Rat) (all_agent_names : List String)
    (get_agent_name_from_id get_human_name_from_id : String → String)
    (world_start : Rat) (channel_id : String)
    (backend_error : Option String) (raw : List RawMessage)
    (ledger : List Message) : ReadResult × List Message :=
  match backend_error with
  | some e => (ReadResult.err e, ledger)
  | none =>
    let messages := (raw.filter (dm_read_keeps fts world_start)).map
      (normalize_dm_message all_agent_names get_agent_name_from_id
        get_human_name_from_id channel_id)
    (ReadResult.msgs messages, _update_agent_read_messages ledger messages)

/-- C3 counterexample: a DM read that receives zero messages (and no
backend error) returns the empty message list, not the not-a-member
string. -/
theorem read_dm_empty_not_member_string_false :
    (read_dm (fun _ => 0) [] (fun u => u) (fun u => u) 0 "C1" none [] []).1
      = ReadResult.msgs []
    ∧ (read_dm (fun _ => 0) [] (fun u => u) (fun u => u) 0 "C1" none [] []).1
      ≠ ReadResult.err "You are not a member of this channel, you can't read it." := by
  exact ⟨rfl, by decide⟩

/-- C3 (amended): the zero-messages-means-not-a-member report belongs to
`read_channel`: a channel read whose raw list is empty returns the literal
not-a-member string (leaving the ledger untouched), while a DM read with
zero raw messages and no backend error returns the empty message list. -/
theorem empty_read_reporting (fts : String → Rat)
    (all_agent_names : List String)
    (get_agent_name_from_id get_human_name_from_id : String → String)
    (world_start : Rat) (channel_id : String) (ledger : List Message) :
    (read_channel fts all_agent_names get_agent_name_from_id
        get_human_name_from_id world_start channel_id [] ledger)
      = (ReadResult.err
          "You are not a member of this channel, you can't read it.", ledger)
    ∧ (read_dm fts all_agent_names get_agent_name_from_id
        get_human_name_from_id world_start channel_id none [] ledger).1
      = ReadResult.msgs [] :=
  ⟨rfl, rfl⟩

/-- C6: the world-start time-window filter is asymmetric by call site —
`read_channel` keeps exactly the raw records with timestamp strictly
greater than the world start, while `read_dm` (and `check_new_messages`)
keep those with timestamp greater than or equal; at the boundary
`ts = world_start` the channel filter drops the record and the DM filter
keeps it. -/
theorem window_filter_asymmetry (fts : String → Rat) (world_start : Rat)
    (r : RawMessage) :
    (channel_read_keeps fts world_start r = true ↔ world_start < fts r.ts)
    ∧ (dm_read_keeps fts world_start r = true ↔ world_start ≤ fts r.ts)
    ∧ (check_new_keeps fts world_start r = true ↔ world_start ≤ fts r.ts)
    ∧ (fts r.ts = world_start →
        channel_read_keeps fts world_start r = false
        ∧ dm_read_keeps fts world_start r = true) := by
  refine ⟨by simp [channel_read_keeps], by simp [dm_read_keeps],
    by simp [check_new_keeps], ?_⟩
  intro h
  constructor
  · simp [channel_read_keeps, h]
  · simp [dm_read_keeps, h]

/-- Witness for `window_filter_asymmetry` at a concrete record whose
timestamp equals the world start. -/
theorem window_filter_asymmetry_witness :
    channel_read_keeps (fun _ => 0) 0 ⟨"U1", "hi", "0.0"⟩ = false
    ∧ dm_read_keeps (fun _ => 0) 0 ⟨"U1", "hi", "0.0"⟩ = true :=
  (window_filter_asymmetry (fun _ => 0) 0 ⟨"U1", "hi", "0.0"⟩).2.2.2 rfl

/-- The per-channel `msgs_after` list inside `check_new_messages`: the raw
backend messages of the channel, world-filtered with `>=`, normalized with
the truncated timestamp and the agent-only sender lookup. -/
def cnm_msgs_after (fts : String → Rat)
    (get_agent_name_from_id : String → String) (world_start : Rat)
    (read_backend : String → List RawMessage) (channel_id : String) :
    List Message :=
  ((read_backend channel_id).filter (check_new_keeps fts world_start)).map
    (normalize_cnm_message get_agent_name_from_id channel_id)

/-- The per-channel loop of `check_new_messages`: a channel whose
world-filtered list is empty is skipped (`if len(msgs_after) == 0:
continue`) — before the ledger delta is taken; otherwise the delta is
appended to the output (even when it is empty) and recorded into the
channel's ledger. -/
def check_new_go (fts : String → Rat)
    (get_agent_name_from_id : String → String) (world_start : Rat)
    (read_backend : String → List RawMessage) :
    List String → (String → List Message) →
    List (List Message) × (String → List Message)
  | [], ledgers => ([], ledgers)
  | channel_id :: rest, ledgers =>
    let msgs_after := cnm_msgs_after fts get_agent_name_from_id world_start
      read_backend channel_id
    if msgs_after.length = 0 then
      check_new_go fts get_agent_name_from_id world_start read_backend rest
        ledgers
    else
      let new_messages := only_show_new_messages (ledgers channel_id)
        msgs_after
      let updated := fun c =>
        if c = channel_id then
          _update_agent_read_messages (ledgers channel_id) new_messages
        else ledgers c
      let tail := check_new_go fts get_agent_name_from_id world_start
        read_backend rest updated
      (new_messages :: tail.1, tail.2)

/-- `call_tool("check_new_messages", ...)`, taking the agent's channel list
as refreshed by the initial `update_channels` call: restrict to the
channels whose backend member list still contains the agent
(`channel_ids_with_agent`), then run the per-channel loop over the ledger
map.  Returns the list of per-channel deltas together with the updated
ledger map. -/
def check_new_messages (fts : String → Rat)
    (get_agent_name_from_id : String → String) (world_start : Rat)
    (agent_id : String) (channels : List Channel)
    (get_channel_members : String → List String)
    (read_backend : String → List RawMessage)
    (ledgers : String → List Message) :
    List (List Message) × (String → List Message) :=
  let channel_ids := channels.map Channel.slack_id
  let channel_ids_with_agent := channel_ids.filter
    (fun cid => decide (agent_id ∈ get_channel_members cid))
  check_new_go fts get_agent_name_from_id world_start read_backend
    channel_ids_with_agent ledgers

theorem check_new_go_ledger_mono (fts : String → Rat) (ga : String → String)
    (world_start : Rat) (rb : String → List RawMessage) :
    ∀ (ids : List String) (ledgers : String → List Message) (c : String)
      (m : Message), m ∈ ledgers c →
      m ∈ (check_new_go fts ga world_start rb ids ledgers).2 c := by
  intro ids
  induction ids with
  | nil => intro ledgers c m hm; exact hm
  | cons channel_id rest ih =>
    intro ledgers c m hm
    simp only [check_new_go]
    by_cases h : (cnm_msgs_after fts ga world_start rb channel_id).length = 0
    · simp only [h, if_true]
      exact ih ledgers c m hm
    · simp only [h, if_false]
      apply ih
      by_cases hc : c = channel_id
      · subst hc
        simp only [if_pos rfl]
        exact List.mem_append_left _ hm
      · simp only [if_neg hc]
        exact hm

theorem check_new_go_records (fts : String → Rat) (ga : String → String)
    (world_start : Rat) (rb : String → List RawMessage) :
    ∀ (ids : List String) (ledgers : String → List Message) (cid : String),
      cid ∈ ids → ∀ m ∈ cnm_msgs_after fts ga world_start rb cid,
      m ∈ (check_new_go fts ga world_start rb ids ledgers).2 cid := by
  intro ids
  induction ids with
  | nil => intro ledgers cid hcid; cases hcid
  | cons channel_id rest ih =>
    intro ledgers cid hcid m hm
    simp only [check_new_go]
    by_cases h : (cnm_msgs_after fts ga world_start rb channel_id).length = 0
    · simp only [h, if_true]
      rcases List.mem_cons.mp hcid with hq | hq
      · subst hq
        rw [List.length_eq_zero] at h
        rw [h] at hm
        cases hm
      · exact ih ledgers cid hq m hm
    · simp only [h, if_false]
      rcases List.mem_cons.mp hcid with hq | hq
      · subst hq
        apply check_new_go_ledger_mono
        simp only [if_pos rfl]
        rw [update_with_delta_eq_update]
        exact mem_update_of_mem_candidates _ _ m hm
      · exact ih _ cid hq m hm

theorem delta_eq_nil_of_subset (previous messages : List Message)
    (h : ∀ m ∈ messages, m ∈ previous) :
    only_show_new_messages previous messages = [] := by
  unfold only_show_new_messages
  rw [List.filter_eq_nil_iff]
  intro m hm
  simp only [decide_eq_true_eq, Decidable.not_not]
  exact h m hm

theorem check_new_go_all_recorded_entries_nil (fts : String → Rat)
    (ga : String → String) (world_start : Rat)
    (rb : String → List RawMessage) :
    ∀ (ids : List String) (ledgers : String → List Message),
      (∀ cid ∈ ids, ∀ m ∈ cnm_msgs_after fts ga world_start rb cid,
        m ∈ ledgers cid) →
      ∀ l ∈ (check_new_go fts ga world_start rb ids ledgers).1, l = [] := by
  intro ids
  induction ids with
  | nil => intro ledgers _ l hl; cases hl
  | cons channel_id rest ih =>
    intro ledgers hsub l hl
    simp only [check_new_go] at hl
    by_cases h : (cnm_msgs_after fts ga world_start rb channel_id).length = 0
    · simp only [h, if_true] at hl
      exact ih ledgers (fun cid hcid => hsub cid (List.mem_cons_of_mem _ hcid))
        l hl
    · simp only [h, if_false] at hl
      have hdelta : only_show_new_messages (ledgers channel_id)
          (cnm_msgs_after fts ga world_start rb channel_id) = [] :=
        delta_eq_nil_of_subset _ _
          (hsub channel_id (List.mem_cons_self _ _))
      rcases List.mem_cons.mp hl with hq | hq
      · rw [hq]; exact hdelta
      · refine ih _ ?_ l hq
        intro cid hcid m hm
        by_cases hc : cid = channel_id
        · subst hc
          simp only [if_pos rfl]
          exact List.mem_append_left _
            (hsub cid (List.mem_cons_self _ _) m hm)
        · simp only [if_neg hc]
          exact hsub cid (List.mem_cons_of_mem _ hcid) m hm

theorem check_new_go_length (fts : String → Rat) (ga : String → String)
    (world_start : Rat) (rb : String → List RawMessage) :
    ∀ (ids : List String) (ledgers : String → List Message),
      (check_new_go fts ga world_start rb ids ledgers).1.length
        = (ids.filter (fun cid =>
            decide (cnm_msgs_after fts ga world_start rb cid ≠ []))).length := by
  intro ids
  induction ids with
  | nil => intro ledgers; rfl
  | cons channel_id rest ih =>
    intro ledgers
    simp only [check_new_go]
    by_cases h : (cnm_msgs_after fts ga world_start rb channel_id).length = 0
    · rw [List.length_eq_zero] at h
      simp [h, ih]
    · have hne : cnm_msgs_after fts ga world_start rb channel_id ≠ [] := by
        intro hq; exact h (by rw [hq]; rfl)
      simp only [List.length_eq_zero, hne, if_false, List.filter_cons,
        decide_eq_true_eq, if_pos hne]
      simp [ih]

/-- C1 counterexample: world start 0, one channel `C1` whose backend holds
one message at timestamp 5, the agent a member.  The first
`check_new_messages` delivers the message; the immediately repeated call
finds a nonempty world-filtered list but an empty delta, and returns
`[[]]` — an (empty) entry for that channel — instead of omitting the
channel and returning `[]`. -/
theorem check_new_messages_repeat_keeps_empty_entry :
    (check_new_messages (fun _ => 5) (fun _ => "alice") 0 "A"
      [⟨"C1", "general"⟩] (fun _ => ["A"]) (fun _ => [⟨"U1", "hello", "5"⟩])
      ((check_new_messages (fun _ => 5) (fun _ => "alice") 0 "A"
        [⟨"C1", "general"⟩] (fun _ => ["A"])
        (fun _ => [⟨"U1", "hello", "5"⟩]) (fun _ => [])).2)).1
      = [[]]
    ∧ ([[]] : List (List Message)) ≠ [] := by
  decide

/-- C1 (amended): `check_new_messages` returns one entry per
member-verified channel whose world-filtered backend message list is
nonempty — a channel is omitted exactly when that filtered list is empty,
not when its ledger delta is empty; consequently an immediately repeated
call returns an empty-list entry (every entry of the second run is `[]`)
for a channel that was just delivered, rather than omitting it. -/
theorem check_new_messages_shape (fts : String → Rat)
    (get_agent_name_from_id : String → String) (world_start : Rat)
    (agent_id : String) (channels : List Channel)
    (get_channel_members : String → List String)
    (read_backend : String → List RawMessage)
    (ledgers : String → List Message) :
    (check_new_messages fts get_agent_name_from_id world_start agent_id
        channels get_channel_members read_backend ledgers).1.length
      = (((channels.map Channel.slack_id).filter
            (fun cid => decide (agent_id ∈ get_channel_members cid))).filter
          (fun cid => decide (cnm_msgs_after fts get_agent_name_from_id
            world_start read_backend cid ≠ []))).length
    ∧ ∀ l ∈ (check_new_messages fts get_agent_name_from_id world_start
        agent_id channels get_channel_members read_backend
        ((check_new_messages fts get_agent_name_from_id world_start agent_id
          channels get_channel_members read_backend ledgers).2)).1,
        l = [] := by
  constructor
  · exact check_new_go_length fts get_agent_name_from_id world_start
      read_backend _ ledgers
  · intro l hl
    refine check_new_go_all_recorded_entries_nil fts get_agent_name_from_id
      world_start read_backend _ _ ?_ l hl
    intro cid hcid m hm
    exact check_new_go_records fts get_agent_name_from_id world_start
      read_backend _ ledgers cid hcid m hm

/-- Witness for `check_new_messages_shape`: the second-run-entries-empty
component applied to a concrete world with one already-delivered
message. -/
theorem check_new_messages_shape_witness : ([] : List Message) = [] :=
  (check_new_messages_shape (fun _ => 5) (fun _ => "bob") 0 "B"
    [⟨"C2", "random"⟩] (fun _ => ["B"]) (fun _ => [⟨"U2", "hey", "5"⟩])
    (fun _ => [])).2 [] (by decide)

theorem read_channel_msgs_mem (fts : String → Rat)
    (all_agent_names : List String) (ga gh : String → String)
    (world_start : Rat) (channel_id : String) (raw : List RawMessage)
    (ledger : List Message) (l : List Message)
    (hl : (read_channel fts all_agent_names ga gh world_start channel_id raw
      ledger).1 = ReadResult.msgs l) (m : Message) (hm : m ∈ l) :
    ∃ r ∈ raw, channel_read_keeps fts world_start r = true
      ∧ m = normalize_channel_message all_agent_names ga gh channel_id r := by
  by_cases h : raw.length = 0
  · simp only [read_channel, h, if_true] at hl
    cases hl
  · simp only [read_channel, h, if_false, ReadResult.msgs.injEq] at hl
    subst hl
    rcases List.mem_map.mp hm with ⟨r, hr, rfl⟩
    exact ⟨r, List.mem_of_mem_filter hr, List.of_mem_filter hr, rfl⟩

theorem read_dm_msgs_mem (fts : String → Rat)
    (all_agent_names : List String) (ga gh : String → String)
    (world_start : Rat) (channel_id : String)
    (backend_error : Option String) (raw : List RawMessage)
    (ledger : List Message) (l : List Message)
    (hl : (read_dm fts all_agent_names ga gh world_start channel_id
      backend_error raw ledger).1 = ReadResult.msgs l)
    (m : Message) (hm : m ∈ l) :
    ∃ r ∈ raw, dm_read_keeps fts world_start r = true
      ∧ m = normalize_dm_message all_agent_names ga gh channel_id r := by
  cases backend_error with
  | some e => simp only [read_dm] at hl; cases hl
  | none =>
    simp only [read_dm, ReadResult.msgs.injEq] at hl
    subst hl
    rcases List.mem_map.mp hm with ⟨r, hr, rfl⟩
    exact ⟨r, List.mem_of_mem_filter hr, List.of_mem_filter hr, rfl⟩

theorem check_new_go_entries (fts : String → Rat) (ga : String → String)
    (world_start : Rat) (rb : String → List RawMessage) :
    ∀ (ids : List String) (ledgers : String → List Message)
      (l : List Message), l ∈ (check_new_go fts ga world_start rb ids
        ledgers).1 →
      ∃ cid ∈ ids, ∀ m ∈ l, m ∈ cnm_msgs_after fts ga world_start rb cid := by
  intro ids
  induction ids with
  | nil => intro ledgers l hl; cases hl
  | cons channel_id rest ih =>
    intro ledgers l hl
    simp only [check_new_go] at hl
    by_cases h : (cnm_msgs_after fts ga world_start rb channel_id).length = 0
    · simp only [h, if_true] at hl
      rcases ih ledgers l hl with ⟨cid, hcid, hsub⟩
      exact ⟨cid, List.mem_cons_of_mem _ hcid, hsub⟩
    · simp only [h, if_false] at hl
      rcases List.mem_cons.mp hl with hq | hq
      · refine ⟨channel_id, List.mem_cons_self _ _, ?_⟩
        intro m hm
        rw [hq] at hm
        exact List.mem_of_mem_filter hm
      · rcases ih _ l hq with ⟨cid, hcid, hsub⟩
        exact ⟨cid, List.mem_cons_of_mem _ hcid, hsub⟩

theorem cnm_msgs_after_mem (fts : String → Rat) (ga : String → String)
    (world_start : Rat) (rb : String → List RawMessage) (cid : String)
    (m : Message) (hm : m ∈ cnm_msgs_after fts ga world_start rb cid) :
    ∃ r ∈ rb cid, check_new_keeps fts world_start r = true
      ∧ m = normalize_cnm_message ga cid r := by
  rcases List.mem_map.mp hm with ⟨r, hr, rfl⟩
  exact ⟨r, List.mem_of_mem_filter hr, List.of_mem_filter hr, rfl⟩

/-- C5: world isolation — in each of `read_channel`, `read_dm` and
`check_new_messages`, every message delivered to the agent is the
normalization of some backend raw record whose timestamp is not strictly
before the world's `start_datetime` (the three call-site filters keep only
`>` resp. `>=` the start, both of which exclude strictly-earlier
records). -/
theorem world_isolation (fts : String → Rat) (all_agent_names : List String)
    (ga gh : String → String) (world_start : Rat) (channel_id : String)
    (backend_error : Option String) (raw : List RawMessage)
    (ledger : List Message) (agent_id : String) (channels : List Channel)
    (get_channel_members : String → List String)
    (read_backend : String → List RawMessage)
    (ledgers : String → List Message) :
    (∀ l, (read_channel fts all_agent_names ga gh world_start channel_id raw
        ledger).1 = ReadResult.msgs l → ∀ m ∈ l,
        ∃ r ∈ raw, ¬ fts r.ts < world_start
          ∧ m = normalize_channel_message all_agent_names ga gh channel_id r)
    ∧ (∀ l, (read_dm fts all_agent_names ga gh world_start channel_id
        backend_error raw ledger).1 = ReadResult.msgs l → ∀ m ∈ l,
        ∃ r ∈ raw, ¬ fts r.ts < world_start
          ∧ m = normalize_dm_message all_agent_names ga gh channel_id r)
    ∧ (∀ l ∈ (check_new_messages fts ga world_start agent_id channels
        get_channel_members read_backend ledgers).1, ∀ m ∈ l,
        ∃ cid, ∃ r ∈ read_backend cid, ¬ fts r.ts < world_start
          ∧ m = normalize_cnm_message ga cid r) := by
  refine ⟨?_, ?_, ?_⟩
  · intro l hl m hm
    rcases read_channel_msgs_mem fts all_agent_names ga gh world_start
      channel_id raw ledger l hl m hm with ⟨r, hr, hk, hmr⟩
    refine ⟨r, hr, ?_, hmr⟩
    have : world_start < fts r.ts := by
      simpa [channel_read_keeps] using hk
    exact not_lt.mpr (le_of_lt this)
  · intro l hl m hm
    rcases read_dm_msgs_mem fts all_agent_names ga gh world_start channel_id
      backend_error raw ledger l hl m hm with ⟨r, hr, hk, hmr⟩
    refine ⟨r, hr, ?_, hmr⟩
    have : world_start ≤ fts r.ts := by
      simpa [dm_read_keeps] using hk
    exact not_lt.mpr this
  · intro l hl m hm
    rcases check_new_go_entries fts ga world_start read_backend _ ledgers l
      hl with ⟨cid, _, hsub⟩
    rcases cnm_msgs_after_mem fts ga world_start read_backend cid m
      (hsub m hm) with ⟨r, hr, hk, hmr⟩
    refine ⟨cid, r, hr, ?_, hmr⟩
    have : world_start ≤ fts r.ts := by
      simpa [check_new_keeps] using hk
    exact not_lt.mpr this

/-- Witness for `world_isolation`: the `check_new_messages` component
applied to a concrete one-channel world whose single backend message sits
at timestamp 7 with world start 0. -/
theorem world_isolation_witness :
    ∃ cid, ∃ r ∈ (fun _ : String =>
        [(⟨"U1", "hola", "7"⟩ : RawMessage)]) cid,
      ¬ (fun _ : String => (7 : Rat)) r.ts < (0 : Rat)
      ∧ (⟨"hola", "C3", "U1", TSVal.s "7", "carol"⟩ : Message)
        = normalize_cnm_message (fun _ => "carol") cid r :=
  (world_isolation (fun _ => (7 : Rat)) [] (fun _ => "carol")
      (fun _ => "nobody") 0 "C3" none [] [] "A" [⟨"C3", "general"⟩]
      (fun _ => ["A"]) (fun _ => [⟨"U1", "hola", "7"⟩])
      (fun _ => [])).2.2
    [⟨"hola", "C3", "U1", TSVal.s "7", "carol"⟩] (by decide)
    ⟨"hola", "C3", "U1", TSVal.s "7", "carol"⟩ (by decide)

/-- The sender resolution as the specification words it: use the agent
reverse lookup when the sender id belongs to a known agent (membership in
the agent id set), and fall back to the human reverse lookup otherwise.
Stated only for comparison against `resolve_sender_read` and
`normalize_cnm_message`. -/
def resolve_sender_spec (agent_ids : List String)
    (get_agent_name_from_id get_human_name_from_id : String → String)
    (user : String) : String :=
  if user ∈ agent_ids then get_agent_name_from_id user
  else get_human_name_from_id user

/-- C7 counterexample: (a) in `check_new_messages` the sender of a message
written by a non-agent is still resolved through the agent lookup — there
is no human fallback at that call site, so the resolved name disagrees
with the spec's agent-then-human resolution; (b) in `read_channel` and
`read_dm` the guard tests the raw slack id against the agent display
names, so a known agent's id (not itself a display name) falls through to
the human lookup, again disagreeing with the spec's resolution. -/
theorem sender_resolution_counterexample :
    ((normalize_cnm_message (fun _ => "unknown") "C1"
        ⟨"H9", "hi", "5.0"⟩).agent_name = "unknown"
      ∧ resolve_sender_spec [] (fun _ => "unknown") (fun _ => "harriet")
          "H9" = "harriet"
      ∧ ("unknown" : String) ≠ "harriet")
    ∧ (resolve_sender_read ["alice"] (fun _ => "alice") (fun _ => "harry")
          "U1" = "harry"
      ∧ resolve_sender_spec ["U1"] (fun _ => "alice") (fun _ => "harry")
          "U1" = "alice"
      ∧ ("harry" : String) ≠ "alice") := by
  decide

/-- C7 (amended): in `read_channel` and `read_dm` the sender of every
delivered message is resolved by the agent lookup when the raw sender id
occurs in the list of agent display names and by the human lookup
otherwise (`resolve_sender_read`); in `check_new_messages` the sender is
always resolved by the agent lookup, with no human fallback. -/
theorem sender_resolution (fts : String → Rat)
    (all_agent_names : List String) (ga gh : String → String)
    (world_start : Rat) (channel_id : String)
    (backend_error : Option String) (raw : List RawMessage)
    (ledger : List Message) (agent_id : String) (channels : List Channel)
    (get_channel_members : String → List String)
    (read_backend : String → List RawMessage)
    (ledgers : String → List Message) :
    (∀ l, (read_channel fts all_agent_names ga gh world_start channel_id raw
        ledger).1 = ReadResult.msgs l → ∀ m ∈ l,
        m.agent_name = resolve_sender_read all_agent_names ga gh m.user_id)
    ∧ (∀ l, (read_dm fts all_agent_names ga gh world_start channel_id
        backend_error raw ledger).1 = ReadResult.msgs l → ∀ m ∈ l,
        m.agent_name = resolve_sender_read all_agent_names ga gh m.user_id)
    ∧ (∀ l ∈ (check_new_messages fts ga world_start agent_id channels
        get_channel_members read_backend ledgers).1, ∀ m ∈ l,
        m.agent_name = ga m.user_id) := by
  refine ⟨?_, ?_, ?_⟩
  · intro l hl m hm
    rcases read_channel_msgs_mem fts all_agent_names ga gh world_start
      channel_id raw ledger l hl m hm with ⟨r, _, _, hmr⟩
    rw [hmr]
    rfl
  · intro l hl m hm
    rcases read_dm_msgs_mem fts all_agent_names ga gh world_start channel_id
      backend_error raw ledger l hl m hm with ⟨r, _, _, hmr⟩
    rw [hmr]
    rfl
  · intro l hl m hm
    rcases check_new_go_entries fts ga world_start read_backend _ ledgers l
      hl with ⟨cid, _, hsub⟩
    rcases cnm_msgs_after_mem fts ga world_start read_backend cid m
      (hsub m hm) with ⟨r, _, _, hmr⟩
    rw [hmr]
    rfl

/-- Witness for `sender_resolution`: the `read_channel` component applied
to a concrete read whose single sender id is not among the agent names. -/
theorem sender_resolution_witness :
    (⟨"ping", "C4", "U7", TSVal.s "3", "hanna"⟩ : Message).agent_name
      = resolve_sender_read ["dave"] (fun _ => "dave") (fun _ => "hanna")
          (⟨"ping", "C4", "U7", TSVal.s "3", "hanna"⟩ : Message).user_id :=
  (sender_resolution (fun _ => (3 : Rat)) ["dave"] (fun _ => "dave")
      (fun _ => "hanna") 0 "C4" none [⟨"U7", "ping", "3"⟩] [] "A" []
      (fun _ => []) (fun _ => []) (fun _ => [])).1
    [⟨"ping", "C4", "U7", TSVal.s "3", "hanna"⟩] (by decide)
    ⟨"ping", "C4", "U7", TSVal.s "3", "hanna"⟩ (by decide)

/-- DM walk of `Server.update_channels` (the first loop): for each
ongoing-DM channel id not already seen, fetch its member list, drop the
configured always-add users, and build a synthetic channel named by the
comma-joined remaining members; the id is added to the seen set.  The seen
set is threaded and returned for the named-channel walk. -/
def update_channels_dms (get_channel_members : String → List String)
    (always_add_users : List String) :
    List String → List String → List Channel × List String
  | [], seen => ([], seen)
  | id :: rest, seen =>
    if id ∈ seen then
      update_channels_dms get_channel_members always_add_users rest seen
    else
      let channel_members := (get_channel_members id).filter
        (fun member => decide (member ∉ always_add_users))
      let tail := update_channels_dms get_channel_members always_add_users
        rest (id :: seen)
      (⟨id, String.intercalate "," channel_members⟩ :: tail.1, tail.2)

/-- Named-channel walk of `Server.update_channels` (the second loop): add
any listed channel whose id was not already seen. -/
def update_channels_named :
    List (String × String) → List String → List Channel × List String
  | [], seen => ([], seen)
  | (id, name) :: rest, seen =>
    if id ∈ seen then update_channels_named rest seen
    else
      let tail := update_channels_named rest (id :: seen)
      (⟨id, name⟩ :: tail.1, tail.2)

/-- `Server.update_channels`: the combined, id-de-duplicated channel list —
ongoing DMs first, then the backend's named channels, sharing one seen
set. -/
def update_channels (get_channel_members : String → List String)
    (always_add_users : List String) (ongoing_dm_ids : List String)
    (named_channels : List (String × String)) : List Channel :=
  let dms := update_channels_dms get_channel_members always_add_users
    ongoing_dm_ids []
  (dms.1 ++ (update_channels_named named_channels dms.2).1)

/-- The effect of `Server.update_channels` on the agent record: the stored
channel list is replaced wholesale (`agent.channels = all_channels`) by
the list computed from the backend listings alone. -/
def update_channels_apply (get_channel_members : String → List String)
    (always_add_users : List String) (ongoing_dm_ids : List String)
    (named_channels : List (String × String))
    (_agent_channels : List Channel) : List Channel :=
  update_channels get_channel_members always_add_users ongoing_dm_ids
    named_channels

theorem update_channels_dms_invariant (gcm : String → List String)
    (always_add_users : List String) :
    ∀ (ids seen : List String),
      ((update_channels_dms gcm always_add_users ids seen).1.map
        Channel.slack_id).Nodup
      ∧ (∀ c ∈ (update_channels_dms gcm always_add_users ids seen).1,
          c.slack_id ∉ seen
          ∧ c.slack_id ∈ (update_channels_dms gcm always_add_users ids
            seen).2)
      ∧ (∀ x ∈ seen,
          x ∈ (update_channels_dms gcm always_add_users ids seen).2) := by
  intro ids
  induction ids with
  | nil =>
    intro seen
    refine ⟨?_, ?_, ?_⟩ <;> simp [update_channels_dms]
  | cons id rest ih =>
    intro seen
    by_cases hseen : id ∈ seen
    · simpa [update_channels_dms, hseen] using ih seen
    · rcases ih (id :: seen) with ⟨hnodup, hfresh, hgrow⟩
      simp only [update_channels_dms, hseen, if_false]
      refine ⟨?_, ?_, ?_⟩
      · refine List.nodup_cons.mpr ⟨?_, hnodup⟩
        intro hmem
        rcases List.mem_map.mp hmem with ⟨c, hc, hcid⟩
        exact (hfresh c hc).1 (hcid ▸ List.mem_cons_self id seen)
      · intro c hc
        rcases List.mem_cons.mp hc with hq | hq
        · subst hq
          exact ⟨hseen, hgrow id (List.mem_cons_self id seen)⟩
        · exact ⟨fun hx => (hfresh c hq).1 (List.mem_cons_of_mem _ hx),
            (hfresh c hq).2⟩
      · intro x hx
        exact hgrow x (List.mem_cons_of_mem _ hx)

theorem update_channels_named_invariant :
    ∀ (named : List (String × String)) (seen : List String),
      ((update_channels_named named seen).1.map Channel.slack_id).Nodup
      ∧ (∀ c ∈ (update_channels_named named seen).1,
          c.slack_id ∉ seen
          ∧ c.slack_id ∈ (update_channels_named named seen).2)
      ∧ (∀ x ∈ seen, x ∈ (update_channels_named named seen).2) := by
  intro named
  induction named with
  | nil =>
    intro seen
    refine ⟨?_, ?_, ?_⟩ <;> simp [update_channels_named]
  | cons p rest ih =>
    intro seen
    rcases p with ⟨id, name⟩
    by_cases hseen : id ∈ seen
    · simpa [update_channels_named, hseen] using ih seen
    · rcases ih (id :: seen) with ⟨hnodup, hfresh, hgrow⟩
      simp only [update_channels_named, hseen, if_false]
      refine ⟨?_, ?_, ?_⟩
      · refine List.nodup_cons.mpr ⟨?_, hnodup⟩
        intro hmem
        rcases List.mem_map.mp hmem with ⟨c, hc, hcid⟩
        exact (hfresh c hc).1 (hcid ▸ List.mem_cons_self id seen)
      · intro c hc
        rcases List.mem_cons.mp hc with hq | hq
        · subst hq
          exact ⟨hseen, hgrow id (List.mem_cons_self id seen)⟩
        · exact ⟨fun hx => (hfresh c hq).1 (List.mem_cons_of_mem _ hx),
            (hfresh c hq).2⟩
      · intro x hx
        exact hgrow x (List.mem_cons_of_mem _ hx)

theorem update_channels_ids_nodup (gcm : String → List String)
    (always_add_users : List String) (ongoing_dm_ids : List String)
    (named_channels : List (String × String)) :
    ((update_channels gcm always_add_users ongoing_dm_ids
      named_channels).map Channel.slack_id).Nodup := by
  unfold update_channels
  rw [List.map_append]
  rcases update_channels_dms_invariant gcm always_add_users ongoing_dm_ids
    [] with ⟨hdnodup, hdfresh, _⟩
  rcases update_channels_named_invariant named_channels
    (update_channels_dms gcm always_add_users ongoing_dm_ids []).2 with
    ⟨hnnodup, hnfresh, _⟩
  refine List.Nodup.append hdnodup hnnodup ?_
  intro x hxd hxn
  rcases List.mem_map.mp hxd with ⟨c, hc, hcid⟩
  rcases List.mem_map.mp hxn with ⟨c', hc', hcid'⟩
  exact (hnfresh c' hc').1 (hcid' ▸ hcid ▸ (hdfresh c hc).2)

/-- C8: the Channel Membership Resolver is idempotent — with unchanged
backend listings, replacing the agent's channel list a second time yields
the very same list (in particular a set-equal one) — and the seen-set
de-duplication guarantees that no channel id occurs twice in the produced
list, so a named channel whose id already appeared as a DM channel is
never added a second time. -/
theorem update_channels_idempotent (gcm : String → List String)
    (always_add_users : List String) (ongoing_dm_ids : List String)
    (named_channels : List (String × String))
    (agent_channels : List Channel) :
    update_channels_apply gcm always_add_users ongoing_dm_ids named_channels
        (update_channels_apply gcm always_add_users ongoing_dm_ids
          named_channels agent_channels)
      = update_channels_apply gcm always_add_users ongoing_dm_ids
          named_channels agent_channels
    ∧ ((update_channels gcm always_add_users ongoing_dm_ids
        named_channels).map Channel.slack_id).Nodup :=
  ⟨rfl, update_channels_ids_nodup gcm always_add_users ongoing_dm_ids
    named_channels⟩

/-- The message `send_direct_message` records into the sender's own
ledger: `Message(message=.., channel_id=.., user_id=<sender slack id>,
timestamp=time.time(), agent_name=<sender name>)` — a float (`TSVal.f`)
timestamp. -/
def send_dm_self_message (text channel_id sender_slack_id : String)
    (now : Rat) (sender_name : String) : Message :=
  ⟨text, channel_id, sender_slack_id, TSVal.f now, sender_name⟩

/-- The message `send_message_to_channel` records: `user_id` gets the
sender's display name (`parameters["your_name"]`), not a slack id, and the
timestamp is `time.time()`. -/
def send_channel_self_message (text channel_id your_name : String)
    (now : Rat) : Message :=
  ⟨text, channel_id, your_name, TSVal.f now, your_name⟩

/-- The message `send_message_to_human` records: same shape as
`send_direct_message` — sender slack id and `time.time()`. -/
def send_human_self_message (text channel_id sender_slack_id : String)
    (now : Rat) (sender_name : String) : Message :=
  ⟨text, channel_id, sender_slack_id, TSVal.f now, sender_name⟩

/-- C10: every send-time self-recorded message carries a float
(`time.time()`) timestamp while every backend-derived message carries a
string timestamp (and channel sends additionally put the display name in
`user_id`), so a self-recorded message is never equal — under the
full-attribute dataclass equality — to the backend copy of the same
message; hence recording the self message never makes the dedup filter
suppress the backend copy on a later read. -/
theorem send_self_copy_not_suppressed
    (text channel_id sender_slack_id sender_name : String) (now : Rat)
    (all_agent_names : List String) (ga gh : String → String)
    (cid : String) (r : RawMessage) (ledger : List Message) :
    send_dm_self_message text channel_id sender_slack_id now sender_name
      ≠ normalize_channel_message all_agent_names ga gh cid r
    ∧ send_dm_self_message text channel_id sender_slack_id now sender_name
      ≠ normalize_dm_message all_agent_names ga gh cid r
    ∧ send_dm_self_message text channel_id sender_slack_id now sender_name
      ≠ normalize_cnm_message ga cid r
    ∧ send_channel_self_message text channel_id sender_name now
      ≠ normalize_channel_message all_agent_names ga gh cid r
    ∧ send_channel_self_message text channel_id sender_name now
      ≠ normalize_dm_message all_agent_names ga gh cid r
    ∧ send_channel_self_message text channel_id sender_name now
      ≠ normalize_cnm_message ga cid r
    ∧ send_human_self_message text channel_id sender_slack_id now
        sender_name
      ≠ normalize_channel_message all_agent_names ga gh cid r
    ∧ (normalize_channel_message all_agent_names ga gh cid r ∉ ledger →
        only_show_new_messages
          (_update_agent_read_messages ledger
            [send_dm_self_message text channel_id sender_slack_id now
              sender_name])
          [normalize_channel_message all_agent_names ga gh cid r]
        = [normalize_channel_message all_agent_names ga gh cid r]) := by
  have hts : ∀ (t : Rat) (x : String), TSVal.f t ≠ TSVal.s x := by
    intro t x h
    cases h
  refine ⟨fun h => hts _ _ (congrArg Message.timestamp h),
    fun h => hts _ _ (congrArg Message.timestamp h),
    fun h => hts _ _ (congrArg Message.timestamp h),
    fun h => hts _ _ (congrArg Message.timestamp h),
    fun h => hts _ _ (congrArg Message.timestamp h),
    fun h => hts _ _ (congrArg Message.timestamp h),
    fun h => hts _ _ (congrArg Message.timestamp h), ?_⟩
  intro hnot
  have hcopy : normalize_channel_message all_agent_names ga gh cid r ∉
      _update_agent_read_messages ledger
        [send_dm_self_message text channel_id sender_slack_id now
          sender_name] := by
    intro hmem
    rcases List.mem_append.mp hmem with hq | hq
    · exact hnot hq
    · have hq' := List.mem_of_mem_filter hq
      rw [List.mem_singleton] at hq'
      exact hts _ _ (congrArg Message.timestamp hq'.symm)
  simp [only_show_new_messages, hcopy]

/-- Witness for `send_self_copy_not_suppressed`: the non-suppression
component applied with the empty starting ledger. -/
theorem send_self_copy_not_suppressed_witness :
    only_show_new_messages
      (_update_agent_read_messages []
        [send_dm_self_message "hi" "D1" "U1" 5 "alice"])
      [normalize_channel_message [] (fun _ => "alice") (fun _ => "hank")
        "D1" ⟨"U1", "hi", "5.0"⟩]
    = [normalize_channel_message [] (fun _ => "alice") (fun _ => "hank")
        "D1" ⟨"U1", "hi", "5.0"⟩] :=
  (send_self_copy_not_suppressed "hi" "D1" "U1" "alice" 5 []
      (fun _ => "alice") (fun _ => "hank") "D1" ⟨"U1", "hi", "5.0"⟩
      []).2.2.2.2.2.2.2 (List.not_mem_nil _)

/-- A human record: display name and `slack_member_id`. -/
structure Human where
  name : String
  slack_member_id : String
deriving DecidableEq, Repr

/-- Modelled from the spec: `Registry.get_human` lives in
`agentslack/registry.py`, which is not among the sources; §4.1 of the
specification says entity lookups on an unknown name fail with
`NotFound`.  The lookup is by the human's display name. -/
def get_human (humans : List Human) (name : String) :
    Except String Human :=
  match humans.find? (fun h => h.name == name) with
  | some h => Except.ok h
  | none => Except.error "NotFound"

/-- Modelled from the spec (§4.1): the list of registered human display
names (`registry.get_human_names()`). -/
def get_human_names (humans : List Human) : List String :=
  humans.map Human.name

/-- Outcome of a tool call as seen by the HTTP caller. -/
inductive ToolOutcome where
  | hardFailure (detail : String)
  | payload (s : String)
  | delivered (recorded : Message)
deriving DecidableEq, Repr

/-- `call_tool("send_message_to_human", ...)`: the human record is looked
up (`human_id = self.registry.get_human(parameters["human_name"])...`) on
the line BEFORE the existence guard, so a failing lookup escapes as a hard
failure and the guard's descriptive string (like the unused helper
`return_human_doesnt_exist_error`) is unreachable for unknown names.  The
conversation-open outcome and the clock are inputs; on success the sent
message is recorded into the sender's own ledger.  (The guard string's
Python list repr is simplified to a comma-joined name list.) -/
def send_message_to_human (humans : List Human) (human_name : String)
    (your_name your_slack_id message : String) (open_ok : Bool)
    (opened_channel_id : String) (now : Rat) (ledger : List Message) :
    ToolOutcome × List Message :=
  match get_human humans human_name with
  | Except.error e => (ToolOutcome.hardFailure e, ledger)
  | Except.ok _ =>
    if human_name ∉ get_human_names humans then
      (ToolOutcome.payload ("The human '" ++ human_name
        ++ "' does not exist, here are possible humans: "
        ++ String.intercalate ", " (get_human_names humans)), ledger)
    else if open_ok then
      let m := send_human_self_message message opened_channel_id
        your_slack_id now your_name
      (ToolOutcome.delivered m, _update_agent_read_messages ledger [m])
    else
      (ToolOutcome.hardFailure "Failed to open conversation", ledger)

/-- C9 (code bug): naming a human that does not exist makes
`send_message_to_human` fail hard with the registry's `NotFound` — the
existence guard sits one line after the lookup, so the descriptive
string payload enumerating the valid human names is never produced for
such a caller.  Evaluated at the failing input `human_name = "zoe"` with
only `"ada"` registered. -/
theorem send_to_unknown_human_hard_failure :
    (send_message_to_human [⟨"ada", "H1"⟩] "zoe" "alice" "U1" "hi mate"
      true "D9" 5 []).1 = ToolOutcome.hardFailure "NotFound"
    ∧ ∀ s, (send_message_to_human [⟨"ada", "H1"⟩] "zoe" "alice" "U1"
      "hi mate" true "D9" 5 []).1 ≠ ToolOutcome.payload s := by
  have h1 : (send_message_to_human [⟨"ada", "H1"⟩] "zoe" "alice" "U1"
      "hi mate" true "D9" 5 []).1 = ToolOutcome.hardFailure "NotFound" :=
    rfl
  refine ⟨h1, ?_⟩
  intro s hcontra
  exact ToolOutcome.noConfusion (h1.symm.trans hcontra)

end AgentSlack
